import Mathlib

/-!
FAMM dashboard — verification of the detection validator/merge pipeline

Shallow embedding of the two core source files of the repository:

* `validate_rosemary_geojson.py` — feature validation, normalization,
  alert re-classification and the append-mode merge into the history file;
* `run_inference.py` — the windowed raster scan (window tiling, patch
  rescaling, scan-time alert thresholds).

Python floats are modelled as `ℚ` (all decimal constants compared by the
code are exact in both binary64 and `ℚ` at the relevant points), machine
strings as `String`, JSON property values as the sum type `JVal`, and a
Python exception escaping a function as `Except.error`.
-/

/-! ## Python-style string primitives

All string operations are implemented over `List Char` so that they mirror
Python's semantics (`str.split(sep)`, `str.strip()`, `in`, `str.lower()`,
`s[0].upper()`) and evaluate inside the kernel.  The source data is ASCII,
so the ASCII case maps coincide with Python's Unicode ones here.
-/

/-- ASCII lower-casing of one character (Python `str.lower()` on ASCII). -/
def lowChar (c : Char) : Char :=
  if 65 ≤ c.toNat ∧ c.toNat ≤ 90 then Char.ofNat (c.toNat + 32) else c

/-- ASCII upper-casing of one character (Python `str.upper()` on ASCII). -/
def upChar (c : Char) : Char :=
  if 97 ≤ c.toNat ∧ c.toNat ≤ 122 then Char.ofNat (c.toNat - 32) else c

/-- Python `s.lower()`. -/
def lowerStr (s : String) : String := String.mk (s.toList.map lowChar)

/-- Split a character list at every occurrence of `sep`
(Python `str.split(sep)` for a one-character separator). -/
def splitOnCharList (sep : Char) : List Char → List (List Char)
  | [] => [[]]
  | c :: cs =>
    let r := splitOnCharList sep cs
    if c = sep then [] :: r
    else
      match r with
      | [] => [[c]]
      | h :: t => (c :: h) :: t

/-- Python `s.split(sep)` for a one-character separator. -/
def splitStr (sep : Char) (s : String) : List String :=
  (splitOnCharList sep s.toList).map String.mk

/-- Drop leading whitespace from a character list. -/
def dropWS : List Char → List Char
  | [] => []
  | c :: cs => if c.isWhitespace then dropWS cs else c :: cs

/-- Python `s.strip()`: remove leading and trailing whitespace. -/
def pyStrip (s : String) : String :=
  String.mk (dropWS (dropWS s.toList.reverse).reverse)

/-- Test whether `p` is a leading segment of `l`. -/
def listPre : List Char → List Char → Bool
  | [], _ => true
  | _ :: _, [] => false
  | a :: as, b :: bs => a == b && listPre as bs

/-- Test whether `pat` occurs contiguously inside `l`. -/
def listSub (pat : List Char) : List Char → Bool
  | [] => pat.isEmpty
  | c :: tail => listPre pat (c :: tail) || listSub pat tail

/-- Python `pat in s` (substring containment). -/
def hasSubstr (s pat : String) : Bool := listSub pat.toList s.toList

/-- Python `s.endswith(suf)` — used only to state the spec's "suffix" wording. -/
def endsWithStr (s suf : String) : Bool :=
  listPre suf.toList.reverse s.toList.reverse

/-- ASCII decimal digit test. -/
def isDigitC (c : Char) : Bool := 48 ≤ c.toNat && c.toNat ≤ 57

/-- Numeric value of a digit string (callers have checked `isDigitC`). -/
def natOfDigits (l : List Char) : ℕ :=
  l.foldl (fun acc c => 10 * acc + (c.toNat - 48)) 0

/-- Concatenate strings with a separator (used to render reject reasons). -/
def joinStr (sep : String) : List String → String
  | [] => ""
  | [x] => x
  | x :: xs => x ++ sep ++ joinStr sep xs

/-! ## JSON property values and Python coercions -/

/-- A JSON property value as far as the validator inspects one: a number or
a string.  (The pipeline's own producer, `run_inference.py`, only ever emits
these two shapes into `properties`.) -/
inductive JVal where
  | jnum (q : ℚ)
  | jstr (s : String)
deriving DecidableEq, Repr

/-- Decimal-literal parsing for Python `float(str)`.  Modelled: the sign,
integer and fractional parts (`"1.5"`, `"+0.2"`, `"7."`, `".5"`); Python
additionally accepts exponents and `inf`/`nan`, none of which the analyzed
behaviors exercise.  Non-numeric strings yield `none` (Python: `ValueError`). -/
def parseDecQ (s : String) : Option ℚ :=
  match (pyStrip s).toList with
  | [] => none
  | c :: cs =>
    let signed : ℚ × List Char :=
      if c.toNat = 45 then (-1, cs)
      else if c.toNat = 43 then (1, cs)
      else (1, c :: cs)
    match splitOnCharList '.' signed.2 with
    | [w] =>
      if decide (w ≠ []) && w.all isDigitC then some (signed.1 * natOfDigits w)
      else none
    | [w, f] =>
      if (decide (w ≠ []) || decide (f ≠ [])) && w.all isDigitC && f.all isDigitC then
        some (signed.1 * ((natOfDigits w : ℚ) + (natOfDigits f : ℚ) / (10 ^ f.length)))
      else none
    | _ => none

/-- Python `float(v)` on a JSON value: numbers pass through, strings are
parsed, anything unparsable raises (here: `none`). -/
def pyFloat : JVal → Option ℚ
  | .jnum q => some q
  | .jstr s => parseDecQ s

/-- Python `str(v)` on a JSON value.  The numeric rendering is a stand-in
(`Repr` of the rational) — no analyzed behavior coerces a number to text. -/
def pyStr : JVal → String
  | .jstr s => s
  | .jnum q => reprStr q

/-- Round-half-even on a rational (Python `round` to zero decimals). -/
def rndHalfEven (q : ℚ) : ℤ :=
  if q - ⌊q⌋ = 1 / 2 then (if ⌊q⌋ % 2 = 0 then ⌊q⌋ else ⌊q⌋ + 1)
  else round q

/-- Python `round(q, n)`: round-half-even at `n` decimal places. -/
def pyRound (q : ℚ) (n : ℕ) : ℚ :=
  (rndHalfEven (q * 10 ^ n) : ℚ) / 10 ^ n

/-! ## Data model — `validate_rosemary_geojson.py` -/

/-- A GeoJSON geometry as far as the validator inspects one: its `type`
string (never read) and its `coordinates` array. -/
structure Geometry where
  gtype : Option String
  coordinates : List JVal
deriving DecidableEq, Repr

/-- A GeoJSON feature: the top-level `type` member, the optional
`geometry` member, and the `properties` dictionary (modelled as an
association list; only presence and first-match lookup are used). -/
structure RawFeature where
  ftype : Option String
  geometry : Option Geometry
  properties : List (String × JVal)
deriving DecidableEq, Repr

/-- First-match dictionary lookup (`props[k]` / `props.get(k)`). -/
def lookupProp (props : List (String × JVal)) (k : String) : Option JVal :=
  (props.find? (fun p => p.1 == k)).map (fun p => p.2)

/-- Python `props.get(k, "")` — and also `props[k]` at call sites that are
guarded by the missing-fields check, where the default can never fire. -/
def getProp (props : List (String × JVal)) (k : String) : JVal :=
  (lookupProp props k).getD (.jstr "")

/-! ## Validator — `validate_rosemary_geojson.py` lines 13–143 -/

/-- Rosemary's thresholds — authoritative (source lines 13–18). -/
def remap_alert_level (confidence : ℚ) : String :=
  if confidence > 0.8 then "HIGH"
  else if confidence > 0.5 then "MEDIUM"
  else "LOW"

/-- Source lines 21–24. -/
def REQUIRED_FIELDS : List String :=
  ["confidence", "district", "region", "date", "area_ha", "tile_id", "alert_level"]

/-- Source lines 26–45; a Python dict iterated in insertion order. -/
def DISTRICT_TO_REGION : List (String × String) :=
  [("Kwabre", "Ashanti Region"),
   ("Obuasi", "Ashanti Region"),
   ("Amansie", "Ashanti Region"),
   ("Adansi", "Ashanti Region"),
   ("Bekwai", "Ashanti Region"),
   ("Tarkwa", "Western Region"),
   ("Prestea", "Western Region"),
   ("Wassa", "Western Region"),
   ("Bibiani", "Western Region"),
   ("Mfantseman", "Central Region"),
   ("Komenda", "Central Region"),
   ("Cape Coast", "Central Region"),
   ("Abura", "Central Region"),
   ("Atiwa", "Eastern Region"),
   ("Birim", "Eastern Region"),
   ("Denkyembour", "Eastern Region"),
   ("West Akim", "Eastern Region"),
   ("East Akim", "Eastern Region")]

/-- The helper `cap` of source lines 49–50: upper-case the first character. -/
def cap (part : String) : String :=
  match part.toList with
  | [] => part
  | c :: cs => String.mk (upChar c :: cs)

/-- Source lines 48–54: title-case each hyphen- and space-delimited token. -/
def title_case_district (name : String) : String :=
  joinStr " "
    ((splitStr ' ' name).map (fun word => joinStr "-" ((splitStr '-' word).map cap)))

/-- Source lines 57–61: first table entry whose key is a case-insensitive
substring of the district name. -/
def fallback_region (district : String) : Option String :=
  (DISTRICT_TO_REGION.find?
      (fun e => hasSubstr (lowerStr district) (lowerStr e.1))).map (fun e => e.2)

/-- Number of days in a month of the proleptic Gregorian calendar
(Python `datetime`'s validity rule). -/
def daysInMonth (y m : ℕ) : ℕ :=
  if m = 2 then (if (y % 4 = 0 ∧ y % 100 ≠ 0) ∨ y % 400 = 0 then 29 else 28)
  else if m = 4 ∨ m = 6 ∨ m = 9 ∨ m = 11 then 30 else 31

/-- Source lines 64–69: `datetime.strptime(s, "%Y-%m-%d")` succeeds —
three dash-separated digit groups (year 1–4 digits, month/day 1–2 digits)
denoting a valid calendar date with year in `datetime`'s range. -/
def validate_date (s : String) : Bool :=
  match splitStr '-' s with
  | [ys, ms, ds] =>
    let yl := ys.toList
    let ml := ms.toList
    let dl := ds.toList
    (decide (1 ≤ yl.length) && decide (yl.length ≤ 4) && yl.all isDigitC &&
     decide (1 ≤ ml.length) && decide (ml.length ≤ 2) && ml.all isDigitC &&
     decide (1 ≤ dl.length) && decide (dl.length ≤ 2) && dl.all isDigitC) &&
    (decide (1 ≤ natOfDigits yl) &&
     decide (1 ≤ natOfDigits ml) && decide (natOfDigits ml ≤ 12) &&
     decide (1 ≤ natOfDigits dl) &&
     decide (natOfDigits dl ≤ daysInMonth (natOfDigits yl) (natOfDigits ml)))
  | _ => false

/-- Region normalization, source lines 124–129 (extracted verbatim from the
body of `clean_feature`): optionally append `" Region"`, then apply the
district-based fallback when the region is still unknown. -/
def normalize_region (region : String) (district_fixed : String) : String :=
  let region1 :=
    if region ≠ "" ∧ hasSubstr region "Region" = false ∧
        ¬ (region = "Unknown" ∨ region = "") then
      region ++ " Region"
    else region
  if region1 = "" ∨ (region1 = "Unknown" ∨ region1 = "Unknown Region" ∨ region1 = "") then
    (fallback_region district_fixed).getD "Unknown Region"
  else region1

/-- The seven-field cleaned `properties` object built at source
lines 134–142, in source order. -/
def cleanProps (confidence : ℚ) (district_fixed region date_str : String)
    (area_ha : ℚ) (tile_id alert_out : String) : List (String × JVal) :=
  [("confidence", .jnum (pyRound confidence 4)),
   ("district", .jstr district_fixed),
   ("region", .jstr region),
   ("date", .jstr date_str),
   ("area_ha", .jnum (pyRound area_ha 2)),
   ("tile_id", .jstr tile_id),
   ("alert_level", .jstr alert_out)]

/-- The empty geometry `{}` substituted by `feature.get("geometry", {})`. -/
def emptyGeom : Geometry := { gtype := none, coordinates := [] }

/-- The validator `clean_feature`, source lines 94–143.  `.ok (.inl cf)` is the cleaned
feature, `.ok (.inr reason)` a rejection, and `.error` an exception escaping
the function (Python raises `ValueError` out of `float()` on a non-numeric
field; nothing in the script catches it).  The source binds the coerced
`district`/`region`/`date` strings before coercing `area_ha`; since the
string coercions cannot fail, inlining them below preserves behavior. -/
def clean_feature (feature : RawFeature) : Except String (RawFeature ⊕ String) :=
  if (REQUIRED_FIELDS.filter
        (fun fld => (lookupProp feature.properties fld).isNone)) ≠ [] then
    .ok (.inr ("Missing fields: " ++
      joinStr ", " (REQUIRED_FIELDS.filter
        (fun fld => (lookupProp feature.properties fld).isNone))))
  else if (feature.geometry.getD emptyGeom).coordinates.length < 2 then
    .ok (.inr "Invalid coordinates")
  else
    match pyFloat (getProp feature.properties "confidence") with
    | none => .error "ValueError: float() on confidence"
    | some confidence =>
      match pyFloat (getProp feature.properties "area_ha") with
      | none => .error "ValueError: float() on area_ha"
      | some area_ha =>
        if validate_date (pyStrip (pyStr (getProp feature.properties "date"))) = false then
          .ok (.inr ("Bad date format: " ++ pyStrip (pyStr (getProp feature.properties "date"))))
        else
          .ok (.inl
            { ftype := some "Feature",
              geometry := some (feature.geometry.getD emptyGeom),
              properties :=
                cleanProps confidence
                  (title_case_district (pyStrip (pyStr (getProp feature.properties "district"))))
                  (normalize_region
                    (pyStrip (pyStr (getProp feature.properties "region")))
                    (title_case_district (pyStrip (pyStr (getProp feature.properties "district")))))
                  (pyStrip (pyStr (getProp feature.properties "date")))
                  area_ha
                  (pyStr (getProp feature.properties "tile_id"))
                  (remap_alert_level confidence) })

/-! ## Append-mode merge — `validate_rosemary_geojson.py` lines 72–239 -/

/-- The composite dedup key — a `(tile_id, date)` pair of raw JSON values. -/
abbrev DKey := JVal × JVal

/-- Key extraction in `load_existing` (source lines 83–87):
`(ft["properties"].get("tile_id", ""), ft["properties"].get("date", ""))`. -/
def loadKey (ft : RawFeature) : DKey :=
  ((lookupProp ft.properties "tile_id").getD (.jstr ""),
   (lookupProp ft.properties "date").getD (.jstr ""))

/-- Key computation in the merge loop (source lines 189–190):
`(result["properties"]["tile_id"], result["properties"]["date"])` — both
fields are present in every cleaned feature, so the direct indexing is the
guarded lookup. -/
def mergeKey (cf : RawFeature) : DKey :=
  (getProp cf.properties "tile_id", getProp cf.properties "date")

/-- Result of the cleaning loop: cleaned features added, the final seen-key
set, the duplicate count, and the indexed skip report. -/
abbrev MergeOut := List RawFeature × List DKey × ℕ × List (ℕ × String)

/-- Apply `g` to a successful loop result; propagate an escaped exception. -/
def onOk (g : MergeOut → MergeOut) : Except String MergeOut → Except String MergeOut
  | .error e => .error e
  | .ok r => .ok (g r)

/-- The cleaning/dedup loop of `validate_and_clean` (source lines 182–196),
processing the raw features in input order starting at index `i` with seen
keys `ks`.  A cleaned feature whose key is already seen is counted as a
duplicate and dropped; otherwise it is appended and its key recorded. -/
def mergeLoop (i : ℕ) (raw : List RawFeature) (ks : List DKey) :
    Except String MergeOut :=
  match raw with
  | [] => .ok ([], ks, 0, [])
  | f :: rest =>
    match clean_feature f with
    | .error e => .error e
    | .ok (.inr reason) =>
      onOk (fun r => (r.1, r.2.1, r.2.2.1, (i, reason) :: r.2.2.2))
        (mergeLoop (i + 1) rest ks)
    | .ok (.inl cf) =>
      if mergeKey cf ∈ ks then
        onOk (fun r => (r.1, r.2.1, r.2.2.1 + 1, r.2.2.2))
          (mergeLoop (i + 1) rest ks)
      else
        onOk (fun r => (cf :: r.1, r.2.1, r.2.2.1, r.2.2.2))
          (mergeLoop (i + 1) rest (mergeKey cf :: ks))

/-- The merge driver `validate_and_clean` (source lines 146–239) on parsed data:
`existing` is the feature list of the history file (persistence is the
identity on the data model), `raw` the incoming batch.  Returns the saved
history `existing ++ cleaned`, the added count, the duplicate count and the
skip report; `.error` models the run aborting on an uncaught exception. -/
def validate_and_clean (existing raw : List RawFeature) (overwrite : Bool) :
    Except String (List RawFeature × ℕ × ℕ × List (ℕ × String)) :=
  match mergeLoop 0 raw (if overwrite then [] else existing.map loadKey) with
  | .error e => .error e
  | .ok (cl, _, d, sk) =>
    .ok ((if overwrite then [] else existing) ++ cl, cl.length, d, sk)

/-! ## Windowed scan — `run_inference.py` lines 33–145 -/

/-- Source line 34. -/
def MODEL_SIZE : ℕ := 224

/-- Source line 35. -/
def STRIDE : ℕ := 224

/-- Python `range(0, stop, step)` for `0 < step`, with a possibly negative
stop (the source computes `H - MODEL_SIZE + 1` in ℤ). -/
def pyRange0 (stop : ℤ) (step : ℕ) : List ℕ :=
  (List.range (if 0 < stop then ((stop - 1) / (step : ℤ)).toNat + 1 else 0)).map
    (fun a => a * step)

/-- The window top-left offsets along one axis of extent `extent` (source
lines 108–109): `range(0, extent - MODEL_SIZE + 1, STRIDE)`. -/
def winStarts (extent : ℕ) : List ℕ :=
  pyRange0 ((extent : ℤ) - MODEL_SIZE + 1) STRIDE

/-- All `(i, j)` window top-left corners visited for an `h × w` raster
(source lines 108–110, row-major order). -/
def windows (h w : ℕ) : List (ℕ × ℕ) :=
  (winStarts h).flatMap (fun i => (winStarts w).map (fun j => (i, j)))

/-- Maximum value of a (nonempty) patch — `patch_tensor.max()`. -/
def maxVal : List ℚ → ℚ
  | [] => 0
  | x :: xs => xs.foldl max x

/-- Patch rescaling, source lines 113–114: if the maximum observed value
exceeds 1, divide every value by 10000 before classification. -/
def scale_patch (patch : List ℚ) : List ℚ :=
  if maxVal patch > 1 then patch.map (fun v => v / 10000) else patch

/-- Scan-time alert thresholds, source line 124. -/
def scan_alert (confidence : ℚ) : String :=
  if confidence > 0.8 then "HIGH"
  else if confidence > 0.5 then "MEDIUM"
  else "LOW"

/-! ## Concrete features used as test inputs and witnesses -/

/-- A point geometry with two numeric coordinates. -/
def exGeom : Geometry :=
  { gtype := some "Point", coordinates := [.jnum (-2.05), .jnum 6.2] }

/-- The seven-field raw `properties` object in pipeline order. -/
def mkProps (conf district region date area tile alert : JVal) :
    List (String × JVal) :=
  [("confidence", conf), ("district", district), ("region", region),
   ("date", date), ("area_ha", area), ("tile_id", tile), ("alert_level", alert)]

/-- A well-formed raw detection: tile `tileA.tif`, date `2025-01-01`. -/
def exValid : RawFeature :=
  { ftype := some "Feature", geometry := some exGeom,
    properties := mkProps (.jnum 0.9) (.jstr "Obuasi") (.jstr "Ashanti")
      (.jstr "2025-01-01") (.jnum 501.76) (.jstr "tileA.tif") (.jstr "HIGH") }

/-- The cleaned output of `clean_feature exValid`. -/
def exValidCleaned : RawFeature :=
  { ftype := some "Feature", geometry := some exGeom,
    properties := mkProps (.jnum 0.9) (.jstr "Obuasi") (.jstr "Ashanti Region")
      (.jstr "2025-01-01") (.jnum 501.76) (.jstr "tileA.tif") (.jstr "HIGH") }

/-- An existing history entry holding the key `("tileA.tif", "2025-01-01")`. -/
def exHist : RawFeature :=
  { ftype := some "Feature", geometry := some exGeom,
    properties := mkProps (.jnum 0.7) (.jstr "Obuasi") (.jstr "Ashanti Region")
      (.jstr "2025-01-01") (.jnum 501.76) (.jstr "tileA.tif") (.jstr "MEDIUM") }

/-- First incoming record with the key `("tileA.tif", "2025-01-01")`. -/
def exIncA : RawFeature :=
  { ftype := some "Feature", geometry := some exGeom,
    properties := mkProps (.jnum 0.6) (.jstr "Obuasi") (.jstr "Ashanti")
      (.jstr "2025-01-01") (.jnum 501.76) (.jstr "tileA.tif") (.jstr "MEDIUM") }

/-- The cleaned output of `clean_feature exIncA`. -/
def exIncACleaned : RawFeature :=
  { ftype := some "Feature", geometry := some exGeom,
    properties := mkProps (.jnum 0.6) (.jstr "Obuasi") (.jstr "Ashanti Region")
      (.jstr "2025-01-01") (.jnum 501.76) (.jstr "tileA.tif") (.jstr "MEDIUM") }

/-- Second incoming record with the key `("tileA.tif", "2025-01-01")`. -/
def exIncB : RawFeature :=
  { ftype := some "Feature", geometry := some exGeom,
    properties := mkProps (.jnum 0.95) (.jstr "Obuasi") (.jstr "Ashanti")
      (.jstr "2025-01-01") (.jnum 501.76) (.jstr "tileA.tif") (.jstr "HIGH") }

/-- Confidence `0.80004`: rounds to `0.8` at 4 decimals yet classifies HIGH. -/
def exConf8 : RawFeature :=
  { ftype := some "Feature", geometry := some exGeom,
    properties := mkProps (.jnum 0.80004) (.jstr "Obuasi") (.jstr "Ashanti")
      (.jstr "2025-01-01") (.jnum 501.76) (.jstr "tileB.tif") (.jstr "LOW") }

/-- Region `"Regional"`: contains `"Region"` but does not end with it. -/
def exRegional : RawFeature :=
  { ftype := some "Feature", geometry := some exGeom,
    properties := mkProps (.jnum 0.9) (.jstr "Obuasi") (.jstr "Regional")
      (.jstr "2025-01-01") (.jnum 501.76) (.jstr "tileC.tif") (.jstr "HIGH") }

/-- A feature whose top-level `type` is `"x"`, otherwise well-formed. -/
def exTypeX : RawFeature :=
  { ftype := some "x", geometry := some exGeom,
    properties := mkProps (.jnum 0.9) (.jstr "Obuasi") (.jstr "Ashanti")
      (.jstr "2025-01-01") (.jnum 501.76) (.jstr "tileD.tif") (.jstr "HIGH") }

/-- Region `""`, district `"Obuasi Municipal"` — exercises the fallback. -/
def exObuasiMun : RawFeature :=
  { ftype := some "Feature", geometry := some exGeom,
    properties := mkProps (.jnum 0.9) (.jstr "Obuasi Municipal") (.jstr "")
      (.jstr "2025-01-01") (.jnum 501.76) (.jstr "tileE.tif") (.jstr "HIGH") }

/-- Region `"Unknown"`, district matching no fallback-table entry. -/
def exUnknownReg : RawFeature :=
  { ftype := some "Feature", geometry := some exGeom,
    properties := mkProps (.jnum 0.9) (.jstr "Somewhere") (.jstr "Unknown")
      (.jstr "2025-01-01") (.jnum 501.76) (.jstr "tileF.tif") (.jstr "HIGH") }

/-- A feature missing the required `area_ha` field. -/
def exMissingArea : RawFeature :=
  { ftype := some "Feature", geometry := some exGeom,
    properties :=
      [("confidence", .jnum 0.9), ("district", .jstr "Obuasi"),
       ("region", .jstr "Ashanti"), ("date", .jstr "2025-01-01"),
       ("tile_id", .jstr "tileG.tif"), ("alert_level", .jstr "HIGH")] }

/-- All seven required fields present, but `confidence` is a non-numeric
string: `float()` raises an uncaught `ValueError` in the source. -/
def exBadConfidence : RawFeature :=
  { ftype := some "Feature", geometry := some exGeom,
    properties := mkProps (.jstr "not_a_number") (.jstr "Obuasi") (.jstr "Ashanti")
      (.jstr "2025-01-01") (.jnum 501.76) (.jstr "tileH.tif") (.jstr "HIGH") }

/-! ## Accessors for stating properties of cleaned features -/

/-- The cleaned feature produced for `f`, when `f` is accepted. -/
def cleanedOf (f : RawFeature) : Option RawFeature :=
  match clean_feature f with
  | .ok (.inl cf) => some cf
  | _ => none

/-- A cleaned feature's stored string property. -/
def strProp (cf : RawFeature) (k : String) : Option String :=
  match lookupProp cf.properties k with
  | some (.jstr s) => some s
  | _ => none

/-- A cleaned feature's stored numeric property. -/
def numProp (cf : RawFeature) (k : String) : Option ℚ :=
  match lookupProp cf.properties k with
  | some (.jnum q) => some q
  | _ => none

/-- The number of raw features that pass validation (`clean_feature`
succeeds with a cleaned feature). -/
def validCount (raw : List RawFeature) : ℕ :=
  (raw.filter (fun f =>
    match clean_feature f with
    | .ok (.inl _) => true
    | _ => false)).length

/-- The indexed skip report produced for `raw` starting at index `i`
(well-defined whenever no feature raises). -/
def skippedFrom (i : ℕ) : List RawFeature → List (ℕ × String)
  | [] => []
  | f :: rest =>
    match clean_feature f with
    | .ok (.inr reason) => (i, reason) :: skippedFrom (i + 1) rest
    | _ => skippedFrom (i + 1) rest

/-! ## Theorems

The core `Rat` operations are `@[irreducible]` upstream; making them
semireducible in this section lets `decide`/`rfl` evaluate the embedded
pipeline on the concrete inputs above. -/

section MainTheorems

attribute [local semireducible] Rat.mul Rat.add Rat.inv Rat.sub Rat.ofScientific

/-- C2.  Confidence classification thresholds: the authoritative
classification function returns HIGH iff confidence > 0.8, MEDIUM iff
0.5 < confidence ≤ 0.8, LOW iff confidence ≤ 0.5; the inline scan-time
thresholds of `run_inference.py` agree with it; and 0.81 ↦ HIGH,
0.80 ↦ MEDIUM, 0.51 ↦ MEDIUM, 0.5 ↦ LOW. -/
theorem confidence_classification :
    ∀ c : ℚ,
      (remap_alert_level c = "HIGH" ↔ 0.8 < c) ∧
      (remap_alert_level c = "MEDIUM" ↔ 0.5 < c ∧ c ≤ 0.8) ∧
      (remap_alert_level c = "LOW" ↔ c ≤ 0.5) ∧
      scan_alert c = remap_alert_level c ∧
      remap_alert_level 0.81 = "HIGH" ∧
      remap_alert_level 0.8 = "MEDIUM" ∧
      remap_alert_level 0.51 = "MEDIUM" ∧
      remap_alert_level 0.5 = "LOW" := by
  intro c
  have h58 : (0.5 : ℚ) < 0.8 := by decide
  by_cases h1 : c > 0.8
  · have e : remap_alert_level c = "HIGH" := by simp [remap_alert_level, h1]
    refine ⟨iff_of_true e h1, ?_, ?_, rfl, by decide, by decide, by decide, by decide⟩
    · exact iff_of_false (by rw [e]; decide) (fun h => absurd h1 (not_lt.mpr h.2))
    · exact iff_of_false (by rw [e]; decide) (not_le.mpr (lt_trans h58 h1))
  · by_cases h2 : c > 0.5
    · have e : remap_alert_level c = "MEDIUM" := by simp [remap_alert_level, h1, h2]
      refine ⟨iff_of_false (by rw [e]; decide) h1, ?_, ?_, rfl,
        by decide, by decide, by decide, by decide⟩
      · exact iff_of_true e ⟨h2, not_lt.mp h1⟩
      · exact iff_of_false (by rw [e]; decide) (not_le.mpr h2)
    · have e : remap_alert_level c = "LOW" := by simp [remap_alert_level, h1, h2]
      refine ⟨iff_of_false (by rw [e]; decide) h1, ?_, ?_, rfl,
        by decide, by decide, by decide, by decide⟩
      · exact iff_of_false (by rw [e]; decide) (fun h => h2 h.1)
      · exact iff_of_true e (not_lt.mp h2)

/-- C6.  Normalization and fallback examples: `"tarkwa-nsuaem"` title-cases
to `"Tarkwa-Nsuaem"`; an accepted feature with region `"Ashanti"` stores
`"Ashanti Region"`; one with empty region and district `"Obuasi Municipal"`
stores `"Ashanti Region"` via the fallback table (case-insensitive
substring match, first table entry wins); and `"Unknown Region"` is stored
when no table entry matches. -/
theorem normalization_and_fallback :
    title_case_district "tarkwa-nsuaem" = "Tarkwa-Nsuaem" ∧
    ((cleanedOf exValid).bind (fun cf => strProp cf "region") = some "Ashanti Region") ∧
    ((cleanedOf exObuasiMun).bind (fun cf => strProp cf "region") = some "Ashanti Region") ∧
    fallback_region "Obuasi Municipal" = some "Ashanti Region" ∧
    fallback_region "Amansie Wassa" = some "Ashanti Region" ∧
    fallback_region "oBuAsI-east" = some "Ashanti Region" ∧
    fallback_region "Somewhere" = none ∧
    ((cleanedOf exUnknownReg).bind (fun cf => strProp cf "region") = some "Unknown Region") := by
  refine ⟨rfl, rfl, rfl, rfl, rfl, rfl, rfl, rfl⟩

/-- C8 counterexample.  A patch holding the digital-number value 20000
triggers the rescale (max > 1) but is mapped to `[2]`, which is not inside
the claimed `[0, 1]` range. -/
theorem patch_rescale_counterexample :
    maxVal [(20000 : ℚ)] > 1 ∧
    scale_patch [(20000 : ℚ)] = [(2 : ℚ)] ∧
    ¬ ((2 : ℚ) ≤ 1) := by
  refine ⟨by decide, by decide, by decide⟩

/-- C8 amended.  For every scanned patch: if the maximum observed value is
at most 1 the patch is passed on unscaled; if it exceeds 1 every value is
divided by 10000 — which lands in `[0, 1]` exactly when the raw values lie
in `[0, 10000]`. -/
theorem patch_rescale :
    ∀ p : List ℚ,
      (maxVal p ≤ 1 → scale_patch p = p) ∧
      (1 < maxVal p → scale_patch p = p.map (fun v => v / 10000)) ∧
      (1 < maxVal p → (∀ v ∈ p, 0 ≤ v ∧ v ≤ 10000) →
        ∀ v ∈ scale_patch p, 0 ≤ v ∧ v ≤ 1) := by
  intro p
  refine ⟨fun h => by simp [scale_patch, not_lt.mpr h], fun h => by simp [scale_patch, h],
    fun h hb => ?_⟩
  intro v hv
  simp only [scale_patch, if_pos h, List.mem_map] at hv
  obtain ⟨w, hw, rfl⟩ := hv
  obtain ⟨hw0, hw1⟩ := hb w hw
  constructor
  · positivity
  · rw [div_le_one (by norm_num)]
    linarith

/-- C8 witness: the amended theorem applied to the in-range patch
`[5000, 2]`. -/
theorem patch_rescale_witness :
    1 < maxVal [(5000 : ℚ), 2] ∧
    ∀ v ∈ scale_patch [(5000 : ℚ), 2], 0 ≤ v ∧ v ≤ 1 :=
  ⟨by decide, (patch_rescale [(5000 : ℚ), 2]).2.2 (by decide) (by decide)⟩

/-- C9.  A feature missing `area_ha` is rejected with a reason naming the
missing field, excluded from the output history, and reported in the
skipped list — while a feature whose `confidence` field is present but not
numeric makes `float()` raise an uncaught `ValueError` that aborts the
whole run (the modelled `Except.error`), contradicting "a schema-invalid
record never aborts the run". -/
theorem rejection_reporting_and_abort :
    clean_feature exMissingArea = .ok (.inr "Missing fields: area_ha") ∧
    validate_and_clean [] [exMissingArea] false =
      .ok ([], 0, 0, [(0, "Missing fields: area_ha")]) ∧
    validate_and_clean [] [exBadConfidence] false =
      .error "ValueError: float() on confidence" := by
  refine ⟨rfl, rfl, rfl⟩

/-- C3 counterexample.  Incoming confidence 0.80004 is stored rounded to
0.8 while the stored alert level is computed from the unrounded value:
the feature persists with `confidence = 0.8` and `alert_level = "HIGH"`,
but the authoritative classification of the stored confidence 0.8 is
`"MEDIUM"`. -/
theorem alert_consistency_counterexample :
    ((cleanedOf exConf8).bind (fun cf => numProp cf "confidence") = some 0.8) ∧
    ((cleanedOf exConf8).bind (fun cf => strProp cf "alert_level") = some "HIGH") ∧
    remap_alert_level 0.8 = "MEDIUM" ∧
    ("HIGH" : String) ≠ "MEDIUM" := by
  refine ⟨by rfl, by rfl, by rfl, by decide⟩

/-- C7 counterexample.  Region `"Regional"` is non-empty, is not
`"Unknown"`, and does not end with the suffix `"Region"`, yet the accepted
feature keeps region `"Regional"` unchanged — the code tests substring
containment, not the suffix. -/
theorem region_suffix_counterexample :
    ((cleanedOf exRegional).bind (fun cf => strProp cf "region") = some "Regional") ∧
    endsWithStr "Regional" "Region" = false ∧
    ("Regional" : String) ≠ "" ∧
    ("Regional" : String) ≠ "Unknown" := by
  refine ⟨by rfl, by decide, by decide, by decide⟩

/-- C10 counterexample.  A feature whose top-level `type` is `"x"` is
accepted, and validation rewrites that `type` to `"Feature"` — so it does
not rewrite only the properties object. -/
theorem geometry_frame_counterexample :
    (cleanedOf exTypeX).map RawFeature.ftype = some (some "Feature") ∧
    exTypeX.ftype = some "x" ∧
    some (some "Feature") ≠ some (exTypeX.ftype) := by
  refine ⟨by rfl, by rfl, by decide⟩

/-- Membership in the modelled `range(0, stop, step)`. -/
theorem mem_pyRange0 (stop : ℤ) (step : ℕ) (hs : 0 < step) (x : ℕ) :
    x ∈ pyRange0 stop step ↔ ∃ a : ℕ, x = a * step ∧ (x : ℤ) < stop := by
  unfold pyRange0
  simp only [List.mem_map, List.mem_range]
  constructor
  · rintro ⟨a, ha, rfl⟩
    refine ⟨a, rfl, ?_⟩
    by_cases h0 : 0 < stop
    · rw [if_pos h0] at ha
      have ha' : (a : ℤ) ≤ (stop - 1) / (step : ℤ) := by
        have hnn : 0 ≤ (stop - 1) / (step : ℤ) :=
          Int.ediv_nonneg (by omega) (by exact_mod_cast hs.le)
        omega
      have := (Int.le_ediv_iff_mul_le (by exact_mod_cast hs)).mp ha'
      push_cast
      omega
    · rw [if_neg h0] at ha
      omega
  · rintro ⟨a, rfl, hlt⟩
    have h0 : 0 < stop := lt_of_le_of_lt (by positivity) hlt
    rw [if_pos h0]
    refine ⟨a, ?_, rfl⟩
    have : (a : ℤ) ≤ (stop - 1) / (step : ℤ) := by
      rw [Int.le_ediv_iff_mul_le (by exact_mod_cast hs)]
      push_cast at hlt ⊢
      omega
    have hnn : 0 ≤ (stop - 1) / (step : ℤ) :=
      Int.ediv_nonneg (by omega) (by exact_mod_cast hs.le)
    omega

/-- Membership in the window starts of one axis: exactly the multiples of
`STRIDE` whose window fits inside the extent. -/
theorem mem_winStarts (extent x : ℕ) :
    x ∈ winStarts extent ↔ (∃ a : ℕ, x = a * STRIDE) ∧ x + MODEL_SIZE ≤ extent := by
  rw [winStarts, mem_pyRange0 _ _ (by decide)]
  constructor
  · rintro ⟨a, rfl, hlt⟩
    exact ⟨⟨a, rfl⟩, by omega⟩
  · rintro ⟨⟨a, rfl⟩, hle⟩
    exact ⟨a, rfl, by omega⟩

/-- C5.  Window tiling and truncation: the scanner visits exactly the
windows whose top-left corner `(i, j)` is a multiple of `STRIDE` in each
axis with `i + MODEL_SIZE ≤ height` and `j + MODEL_SIZE ≤ width` (windows
that would exceed the raster bounds are dropped, no padding); a 230×230
raster with window size 224 and stride 224 yields exactly one window. -/
theorem window_tiling :
    (∀ h w i j : ℕ,
      (i, j) ∈ windows h w ↔
        ((∃ a : ℕ, i = a * STRIDE) ∧ i + MODEL_SIZE ≤ h) ∧
        ((∃ b : ℕ, j = b * STRIDE) ∧ j + MODEL_SIZE ≤ w)) ∧
    windows 230 230 = [(0, 0)] ∧
    (windows 230 230).length = 1 := by
  refine ⟨?_, by rfl, by rfl⟩
  intro h w i j
  unfold windows
  simp only [List.mem_flatMap, List.mem_map, Prod.mk.injEq]
  constructor
  · rintro ⟨i', hi', j', hj', rfl, rfl⟩
    exact ⟨(mem_winStarts h i').mp hi', (mem_winStarts w j').mp hj'⟩
  · rintro ⟨hi, hj⟩
    exact ⟨i, (mem_winStarts h i).mpr hi, j, (mem_winStarts w j).mpr hj, rfl, rfl⟩

/-- Characterization of an accepted feature: the guards that passed and the
exact cleaned record that `clean_feature` produced. -/
theorem clean_feature_shape (f cf : RawFeature)
    (h : clean_feature f = .ok (.inl cf)) :
    ∃ c a : ℚ,
      pyFloat (getProp f.properties "confidence") = some c ∧
      pyFloat (getProp f.properties "area_ha") = some a ∧
      ¬ (f.geometry.getD emptyGeom).coordinates.length < 2 ∧
      validate_date (pyStrip (pyStr (getProp f.properties "date"))) = true ∧
      cf = { ftype := some "Feature",
             geometry := some (f.geometry.getD emptyGeom),
             properties := cleanProps c
               (title_case_district (pyStrip (pyStr (getProp f.properties "district"))))
               (normalize_region (pyStrip (pyStr (getProp f.properties "region")))
                 (title_case_district (pyStrip (pyStr (getProp f.properties "district")))))
               (pyStrip (pyStr (getProp f.properties "date")))
               a (pyStr (getProp f.properties "tile_id")) (remap_alert_level c) } := by
  unfold clean_feature at h
  split at h
  · exact absurd h (by simp)
  · split at h
    · exact absurd h (by simp)
    · rename_i hlen
      split at h
      · exact absurd h (by simp)
      · rename_i c hc
        split at h
        · exact absurd h (by simp)
        · rename_i a ha
          split at h
          · exact absurd h (by simp)
          · rename_i hdate
            simp only [Except.ok.injEq, Sum.inl.injEq] at h
            exact ⟨c, a, hc, ha, hlen, by simpa using hdate, h.symm⟩

/-- Appending `" Region"` never yields the empty string. -/
theorem append_region_ne_empty (r : String) : r ++ " Region" ≠ "" := by
  intro h
  have hl := congrArg String.length h
  rw [String.length_append] at hl
  have h7 : (" Region").length = 7 := by decide
  have h0 : ("" : String).length = 0 := by decide
  omega

/-- Appending `" Region"` never yields `"Unknown"`. -/
theorem append_region_ne_unknown (r : String) : r ++ " Region" ≠ "Unknown" := by
  intro h
  have hl := congrArg String.length h
  rw [String.length_append] at hl
  have h7 : (" Region").length = 7 := by decide
  have h0 : ("Unknown" : String).length = 7 := by decide
  have hr : r.length = 0 := by omega
  have hre : r = "" := by
    cases r with
    | mk data => cases data with
      | nil => rfl
      | cons c cs => simp [String.length] at hr
  subst hre
  exact absurd h (by decide)

/-- Equality `r ++ " Region" = "Unknown Region"` forces `r = "Unknown"`. -/
theorem append_region_eq_unknown_region (r : String)
    (h : r ++ " Region" = "Unknown Region") : r = "Unknown" := by
  have h2 : r ++ " Region" = "Unknown" ++ " Region" := by rw [h]; rfl
  have h4 : r.data ++ (" Region").data = ("Unknown").data ++ (" Region").data :=
    congrArg String.data h2
  exact String.ext (List.append_cancel_right h4)

/-- The region-normalization step appends `" Region"` to a non-empty region
that is not `"Unknown"` and does not contain the substring `"Region"`. -/
theorem normalize_region_append (r d : String) (h1 : r ≠ "") (h2 : r ≠ "Unknown")
    (h3 : hasSubstr r "Region" = false) :
    normalize_region r d = r ++ " Region" := by
  have hcond : r ≠ "" ∧ hasSubstr r "Region" = false ∧ ¬(r = "Unknown" ∨ r = "") :=
    ⟨h1, h3, fun h => h.elim (fun hu => h2 hu) (fun he => h1 he)⟩
  unfold normalize_region
  rw [if_pos hcond]
  rw [if_neg]
  rintro (hx | hx | hx | hx)
  · exact append_region_ne_empty r hx
  · exact append_region_ne_unknown r hx
  · exact h2 (append_region_eq_unknown_region r hx)
  · exact append_region_ne_empty r hx

/-- The region-normalization step leaves a region containing the substring
`"Region"` unchanged, unless it is exactly `"Unknown Region"`. -/
theorem normalize_region_keep (r d : String) (h1 : hasSubstr r "Region" = true)
    (h2 : r ≠ "Unknown Region") :
    normalize_region r d = r := by
  have hcond : ¬(r ≠ "" ∧ hasSubstr r "Region" = false ∧ ¬(r = "Unknown" ∨ r = "")) := by
    rintro ⟨-, h3, -⟩
    rw [h1] at h3
    exact absurd h3 (by decide)
  unfold normalize_region
  rw [if_neg hcond]
  rw [if_neg]
  rintro (hx | hx | hx | hx)
  · rw [hx] at h1; exact absurd h1 (by decide)
  · rw [hx] at h1; exact absurd h1 (by decide)
  · exact h2 hx
  · rw [hx] at h1; exact absurd h1 (by decide)


/-- Final key set of the cleaning loop: the incoming keys plus the keys of
the features it added. -/
theorem mergeLoop_keys_mem (raw : List RawFeature) :
    ∀ i ks cl ks1 d sk, mergeLoop i raw ks = .ok (cl, ks1, d, sk) →
      ∀ x, x ∈ ks1 ↔ x ∈ ks ∨ ∃ cf ∈ cl, mergeKey cf = x := by
  induction raw with
  | nil =>
    intro i ks cl ks1 d sk h x
    simp only [mergeLoop, Except.ok.injEq, Prod.mk.injEq] at h
    obtain ⟨rfl, rfl, rfl, rfl⟩ := h
    simp
  | cons f rest ih =>
    intro i ks cl ks1 d sk h x
    cases hcf : clean_feature f with
    | error e => simp only [mergeLoop, hcf] at h; exact absurd h (by simp)
    | ok v =>
      cases v with
      | inr reason =>
        simp only [mergeLoop, hcf] at h
        cases hrec : mergeLoop (i + 1) rest ks with
        | error e => rw [hrec] at h; exact absurd h (by simp [onOk])
        | ok r =>
          obtain ⟨cl', ks1', d', sk'⟩ := r
          rw [hrec] at h
          simp only [onOk, Except.ok.injEq, Prod.mk.injEq] at h
          obtain ⟨rfl, rfl, rfl, rfl⟩ := h
          exact ih _ _ _ _ _ _ hrec x
      | inl cf =>
        by_cases hk : mergeKey cf ∈ ks
        · simp only [mergeLoop, hcf, if_pos hk] at h
          cases hrec : mergeLoop (i + 1) rest ks with
          | error e => rw [hrec] at h; exact absurd h (by simp [onOk])
          | ok r =>
            obtain ⟨cl', ks1', d', sk'⟩ := r
            rw [hrec] at h
            simp only [onOk, Except.ok.injEq, Prod.mk.injEq] at h
            obtain ⟨rfl, rfl, rfl, rfl⟩ := h
            exact ih _ _ _ _ _ _ hrec x
        · simp only [mergeLoop, hcf, if_neg hk] at h
          cases hrec : mergeLoop (i + 1) rest (mergeKey cf :: ks) with
          | error e => rw [hrec] at h; exact absurd h (by simp [onOk])
          | ok r =>
            obtain ⟨cl', ks1', d', sk'⟩ := r
            rw [hrec] at h
            simp only [onOk, Except.ok.injEq, Prod.mk.injEq] at h
            obtain ⟨rfl, rfl, rfl, rfl⟩ := h
            rw [ih _ _ _ _ _ _ hrec x]
            simp only [List.mem_cons]
            constructor
            · rintro ((hx | hx) | ⟨cf2, hcf2, rfl⟩)
              · exact Or.inr ⟨cf, Or.inl rfl, hx.symm⟩
              · exact Or.inl hx
              · exact Or.inr ⟨cf2, Or.inr hcf2, rfl⟩
            · rintro (hx | ⟨cf2, rfl | hcf2, rfl⟩)
              · exact Or.inl (Or.inr hx)
              · exact Or.inl (Or.inl rfl)
              · exact Or.inr ⟨cf2, hcf2, rfl⟩


/-- A successful run of the cleaning loop means no feature raised. -/
theorem mergeLoop_ok_no_error (raw : List RawFeature) :
    ∀ i ks out, mergeLoop i raw ks = .ok out →
      ∀ f ∈ raw, ∀ e, clean_feature f ≠ .error e := by
  induction raw with
  | nil => intro i ks out h f hf e; simp at hf
  | cons g rest ih =>
    intro i ks out h f hf e hferr
    cases hcf : clean_feature g with
    | error e2 => simp only [mergeLoop, hcf] at h; exact absurd h (by simp)
    | ok v =>
      rcases List.mem_cons.mp hf with rfl | hf2
      · rw [hcf] at hferr; exact absurd hferr (by simp)
      · cases v with
        | inr reason =>
          simp only [mergeLoop, hcf] at h
          cases hrec : mergeLoop (i + 1) rest ks with
          | error e3 => rw [hrec] at h; exact absurd h (by simp [onOk])
          | ok r => exact ih _ _ _ hrec f hf2 e hferr
        | inl cf =>
          by_cases hk : mergeKey cf ∈ ks
          · simp only [mergeLoop, hcf, if_pos hk] at h
            cases hrec : mergeLoop (i + 1) rest ks with
            | error e3 => rw [hrec] at h; exact absurd h (by simp [onOk])
            | ok r => exact ih _ _ _ hrec f hf2 e hferr
          · simp only [mergeLoop, hcf, if_neg hk] at h
            cases hrec : mergeLoop (i + 1) rest (mergeKey cf :: ks) with
            | error e3 => rw [hrec] at h; exact absurd h (by simp [onOk])
            | ok r => exact ih _ _ _ hrec f hf2 e hferr

/-- Every feature of the batch that cleans successfully has its key in the
loop's final key set — whether it was added or counted as a duplicate. -/
theorem mergeLoop_valid_key_mem (raw : List RawFeature) :
    ∀ i ks cl ks1 d sk, mergeLoop i raw ks = .ok (cl, ks1, d, sk) →
      ∀ f ∈ raw, ∀ cf, clean_feature f = .ok (.inl cf) → mergeKey cf ∈ ks1 := by
  induction raw with
  | nil => intro i ks cl ks1 d sk h f hf; simp at hf
  | cons g rest ih =>
    intro i ks cl ks1 d sk h f hf cf hclean
    cases hcf : clean_feature g with
    | error e => simp only [mergeLoop, hcf] at h; exact absurd h (by simp)
    | ok v =>
      cases v with
      | inr reason =>
        simp only [mergeLoop, hcf] at h
        cases hrec : mergeLoop (i + 1) rest ks with
        | error e3 => rw [hrec] at h; exact absurd h (by simp [onOk])
        | ok r =>
          obtain ⟨cl', ks1', d', sk'⟩ := r
          rw [hrec] at h
          simp only [onOk, Except.ok.injEq, Prod.mk.injEq] at h
          obtain ⟨rfl, rfl, rfl, rfl⟩ := h
          rcases List.mem_cons.mp hf with rfl | hf2
          · rw [hcf] at hclean; exact absurd hclean (by simp)
          · exact ih _ _ _ _ _ _ hrec f hf2 cf hclean
      | inl cf0 =>
        by_cases hk : mergeKey cf0 ∈ ks
        · simp only [mergeLoop, hcf, if_pos hk] at h
          cases hrec : mergeLoop (i + 1) rest ks with
          | error e3 => rw [hrec] at h; exact absurd h (by simp [onOk])
          | ok r =>
            obtain ⟨cl', ks1', d', sk'⟩ := r
            rw [hrec] at h
            simp only [onOk, Except.ok.injEq, Prod.mk.injEq] at h
            obtain ⟨rfl, rfl, rfl, rfl⟩ := h
            rcases List.mem_cons.mp hf with rfl | hf2
            · rw [hcf] at hclean
              simp only [Except.ok.injEq, Sum.inl.injEq] at hclean
              subst hclean
              exact (mergeLoop_keys_mem rest _ _ _ _ _ _ hrec _).mpr (Or.inl hk)
            · exact ih _ _ _ _ _ _ hrec f hf2 cf hclean
        · simp only [mergeLoop, hcf, if_neg hk] at h
          cases hrec : mergeLoop (i + 1) rest (mergeKey cf0 :: ks) with
          | error e3 => rw [hrec] at h; exact absurd h (by simp [onOk])
          | ok r =>
            obtain ⟨cl', ks1', d', sk'⟩ := r
            rw [hrec] at h
            simp only [onOk, Except.ok.injEq, Prod.mk.injEq] at h
            obtain ⟨rfl, rfl, rfl, rfl⟩ := h
            rcases List.mem_cons.mp hf with rfl | hf2
            · rw [hcf] at hclean
              simp only [Except.ok.injEq, Sum.inl.injEq] at hclean
              subst hclean
              exact (mergeLoop_keys_mem rest _ _ _ _ _ _ hrec _).mpr
                (Or.inl (List.mem_cons_self _ _))
            · exact ih _ _ _ _ _ _ hrec f hf2 cf hclean

/-- Every feature added by the cleaning loop is the cleaned output of some
feature of the incoming batch. -/
theorem mergeLoop_cleaned_from (raw : List RawFeature) :
    ∀ i ks cl ks1 d sk, mergeLoop i raw ks = .ok (cl, ks1, d, sk) →
      ∀ cf ∈ cl, ∃ f ∈ raw, clean_feature f = .ok (.inl cf) := by
  induction raw with
  | nil =>
    intro i ks cl ks1 d sk h cf hcf
    simp only [mergeLoop, Except.ok.injEq, Prod.mk.injEq] at h
    obtain ⟨rfl, rfl, rfl, rfl⟩ := h
    simp at hcf
  | cons g rest ih =>
    intro i ks cl ks1 d sk h cf hcfmem
    cases hcf : clean_feature g with
    | error e => simp only [mergeLoop, hcf] at h; exact absurd h (by simp)
    | ok v =>
      cases v with
      | inr reason =>
        simp only [mergeLoop, hcf] at h
        cases hrec : mergeLoop (i + 1) rest ks with
        | error e3 => rw [hrec] at h; exact absurd h (by simp [onOk])
        | ok r =>
          obtain ⟨cl', ks1', d', sk'⟩ := r
          rw [hrec] at h
          simp only [onOk, Except.ok.injEq, Prod.mk.injEq] at h
          obtain ⟨rfl, rfl, rfl, rfl⟩ := h
          obtain ⟨f, hf, hfc⟩ := ih _ _ _ _ _ _ hrec cf hcfmem
          exact ⟨f, List.mem_cons_of_mem g hf, hfc⟩
      | inl cf0 =>
        by_cases hk : mergeKey cf0 ∈ ks
        · simp only [mergeLoop, hcf, if_pos hk] at h
          cases hrec : mergeLoop (i + 1) rest ks with
          | error e3 => rw [hrec] at h; exact absurd h (by simp [onOk])
          | ok r =>
            obtain ⟨cl', ks1', d', sk'⟩ := r
            rw [hrec] at h
            simp only [onOk, Except.ok.injEq, Prod.mk.injEq] at h
            obtain ⟨rfl, rfl, rfl, rfl⟩ := h
            obtain ⟨f, hf, hfc⟩ := ih _ _ _ _ _ _ hrec cf hcfmem
            exact ⟨f, List.mem_cons_of_mem g hf, hfc⟩
        · simp only [mergeLoop, hcf, if_neg hk] at h
          cases hrec : mergeLoop (i + 1) rest (mergeKey cf0 :: ks) with
          | error e3 => rw [hrec] at h; exact absurd h (by simp [onOk])
          | ok r =>
            obtain ⟨cl', ks1', d', sk'⟩ := r
            rw [hrec] at h
            simp only [onOk, Except.ok.injEq, Prod.mk.injEq] at h
            obtain ⟨rfl, rfl, rfl, rfl⟩ := h
            rcases List.mem_cons.mp hcfmem with rfl | h2
            · exact ⟨g, List.mem_cons_self g rest, hcf⟩
            · obtain ⟨f, hf, hfc⟩ := ih _ _ _ _ _ _ hrec cf h2
              exact ⟨f, List.mem_cons_of_mem g hf, hfc⟩

/-- The skip report of a successful loop depends only on the batch and the
starting index. -/
theorem mergeLoop_skipped (raw : List RawFeature) :
    ∀ i ks cl ks1 d sk, mergeLoop i raw ks = .ok (cl, ks1, d, sk) →
      sk = skippedFrom i raw := by
  induction raw with
  | nil =>
    intro i ks cl ks1 d sk h
    simp only [mergeLoop, Except.ok.injEq, Prod.mk.injEq] at h
    obtain ⟨rfl, rfl, rfl, rfl⟩ := h
    rfl
  | cons g rest ih =>
    intro i ks cl ks1 d sk h
    cases hcf : clean_feature g with
    | error e => simp only [mergeLoop, hcf] at h; exact absurd h (by simp)
    | ok v =>
      cases v with
      | inr reason =>
        simp only [mergeLoop, hcf] at h
        cases hrec : mergeLoop (i + 1) rest ks with
        | error e3 => rw [hrec] at h; exact absurd h (by simp [onOk])
        | ok r =>
          obtain ⟨cl', ks1', d', sk'⟩ := r
          rw [hrec] at h
          simp only [onOk, Except.ok.injEq, Prod.mk.injEq] at h
          obtain ⟨rfl, rfl, rfl, rfl⟩ := h
          rw [ih _ _ _ _ _ _ hrec]
          simp [skippedFrom, hcf]
      | inl cf0 =>
        by_cases hk : mergeKey cf0 ∈ ks
        · simp only [mergeLoop, hcf, if_pos hk] at h
          cases hrec : mergeLoop (i + 1) rest ks with
          | error e3 => rw [hrec] at h; exact absurd h (by simp [onOk])
          | ok r =>
            obtain ⟨cl', ks1', d', sk'⟩ := r
            rw [hrec] at h
            simp only [onOk, Except.ok.injEq, Prod.mk.injEq] at h
            obtain ⟨rfl, rfl, rfl, rfl⟩ := h
            rw [ih _ _ _ _ _ _ hrec]
            simp [skippedFrom, hcf]
        · simp only [mergeLoop, hcf, if_neg hk] at h
          cases hrec : mergeLoop (i + 1) rest (mergeKey cf0 :: ks) with
          | error e3 => rw [hrec] at h; exact absurd h (by simp [onOk])
          | ok r =>
            obtain ⟨cl', ks1', d', sk'⟩ := r
            rw [hrec] at h
            simp only [onOk, Except.ok.injEq, Prod.mk.injEq] at h
            obtain ⟨rfl, rfl, rfl, rfl⟩ := h
            rw [ih _ _ _ _ _ _ hrec]
            simp [skippedFrom, hcf]

/-- When no feature raises and every valid feature's key is already seen,
the cleaning loop adds nothing, keeps the key set, and counts every valid
feature as a duplicate. -/
theorem mergeLoop_idem (raw : List RawFeature) :
    ∀ i ks, (∀ f ∈ raw, ∀ e, clean_feature f ≠ .error e) →
      (∀ f ∈ raw, ∀ cf, clean_feature f = .ok (.inl cf) → mergeKey cf ∈ ks) →
      mergeLoop i raw ks = .ok ([], ks, validCount raw, skippedFrom i raw) := by
  induction raw with
  | nil => intro i ks _ _; simp [mergeLoop, validCount, skippedFrom]
  | cons g rest ih =>
    intro i ks hne hcov
    have hne' : ∀ f ∈ rest, ∀ e, clean_feature f ≠ .error e :=
      fun f hf => hne f (List.mem_cons_of_mem g hf)
    have hcov' : ∀ f ∈ rest, ∀ cf, clean_feature f = .ok (.inl cf) → mergeKey cf ∈ ks :=
      fun f hf => hcov f (List.mem_cons_of_mem g hf)
    cases hcf : clean_feature g with
    | error e => exact absurd hcf (hne g (List.mem_cons_self g rest) e)
    | ok v =>
      cases v with
      | inr reason =>
        simp only [mergeLoop, hcf]
        rw [ih (i + 1) ks hne' hcov']
        simp [onOk, validCount, skippedFrom, hcf]
      | inl cf =>
        have hk : mergeKey cf ∈ ks := hcov g (List.mem_cons_self g rest) cf hcf
        simp only [mergeLoop, hcf, if_pos hk]
        rw [ih (i + 1) ks hne' hcov']
        simp [onOk, validCount, skippedFrom, hcf]

/-- The two key-extraction sites compute the same key. -/
theorem loadKey_eq_mergeKey (ft : RawFeature) : loadKey ft = mergeKey ft := rfl

/-- C1.  Merge idempotence: re-running the validate-and-merge step in
append mode with the same input batch against the history produced by a
first successful run leaves the history unchanged, adds zero records, and
counts every incoming record that passes validation as a duplicate (the
skip report is likewise reproduced). -/
theorem merge_idempotent (existing raw : List RawFeature) (h1 : List RawFeature)
    (n1 d1 : ℕ) (s1 : List (ℕ × String))
    (hrun : validate_and_clean existing raw false = .ok (h1, n1, d1, s1)) :
    validate_and_clean h1 raw false = .ok (h1, 0, validCount raw, s1) := by
  unfold validate_and_clean at hrun ⊢
  simp only [Bool.false_eq_true, if_false] at hrun ⊢
  cases hm : mergeLoop 0 raw (existing.map loadKey) with
  | error e => rw [hm] at hrun; exact absurd hrun (by simp)
  | ok r =>
    obtain ⟨cl, ks1, d, sk⟩ := r
    rw [hm] at hrun
    simp only [Except.ok.injEq, Prod.mk.injEq] at hrun
    obtain ⟨rfl, rfl, rfl, rfl⟩ := hrun
    have hcov : ∀ f ∈ raw, ∀ cf, clean_feature f = .ok (.inl cf) →
        mergeKey cf ∈ (existing ++ cl).map loadKey := by
      intro f hf cf hc
      have hin1 : mergeKey cf ∈ ks1 :=
        mergeLoop_valid_key_mem raw 0 _ _ _ _ _ hm f hf cf hc
      rcases (mergeLoop_keys_mem raw 0 _ _ _ _ _ hm (mergeKey cf)).mp hin1 with
        hx | ⟨cf2, hcf2, hkey⟩
      · rw [List.map_append]; exact List.mem_append_left _ hx
      · rw [List.map_append]
        refine List.mem_append_right _ ?_
        rw [List.mem_map]
        exact ⟨cf2, hcf2, by rw [loadKey_eq_mergeKey]; exact hkey⟩
    have hne := mergeLoop_ok_no_error raw 0 _ _ hm
    rw [mergeLoop_idem raw 0 ((existing ++ cl).map loadKey) hne hcov]
    rw [mergeLoop_skipped raw 0 _ _ _ _ _ hm]
    simp

/-- C1 witness: a first run over the empty history adds `exValid`; the
second run with the same batch returns the same history with zero
additions and one duplicate. -/
theorem merge_idempotent_witness :
    validate_and_clean [] [exValid] false = .ok ([exValidCleaned], 1, 0, []) ∧
    validate_and_clean [exValidCleaned] [exValid] false =
      .ok ([exValidCleaned], 0, validCount [exValid], []) :=
  ⟨by rfl, merge_idempotent [] [exValid] [exValidCleaned] 1 0 [] (by rfl)⟩

/-- Reading the stored region of a cleaned-properties record. -/
theorem strProp_region (t : Option String) (g : Option Geometry) (c a : ℚ)
    (d r dt ti al : String) :
    strProp { ftype := t, geometry := g, properties := cleanProps c d r dt a ti al }
      "region" = some r := rfl

/-- Reading the stored alert level of a cleaned-properties record. -/
theorem strProp_alert (t : Option String) (g : Option Geometry) (c a : ℚ)
    (d r dt ti al : String) :
    strProp { ftype := t, geometry := g, properties := cleanProps c d r dt a ti al }
      "alert_level" = some al := rfl

/-- Reading the stored confidence of a cleaned-properties record. -/
theorem numProp_confidence (t : Option String) (g : Option Geometry) (c a : ℚ)
    (d r dt ti al : String) :
    numProp { ftype := t, geometry := g, properties := cleanProps c d r dt a ti al }
      "confidence" = some (pyRound c 4) := rfl

/-- C4.  Dedup correctness and counting: with an existing history holding
the key `("tileA.tif", "2025-01-01")` and two valid incoming records
sharing that key, the merge adds 0 entries and counts 2 duplicates; in
general, one loop step on a validated record whose key is already seen
only increments the duplicate count, and on a fresh key appends the record
and records its key. -/
theorem dedup_correct :
    (validate_and_clean [exHist] [exIncA, exIncB] false = .ok ([exHist], 0, 2, [])) ∧
    (∀ (i : ℕ) (f : RawFeature) (rest : List RawFeature) (ks : List DKey)
        (cf : RawFeature),
      clean_feature f = .ok (.inl cf) →
      (mergeKey cf ∈ ks →
        mergeLoop i (f :: rest) ks =
          onOk (fun r => (r.1, r.2.1, r.2.2.1 + 1, r.2.2.2))
            (mergeLoop (i + 1) rest ks)) ∧
      (mergeKey cf ∉ ks →
        mergeLoop i (f :: rest) ks =
          onOk (fun r => (cf :: r.1, r.2.1, r.2.2.1, r.2.2.2))
            (mergeLoop (i + 1) rest (mergeKey cf :: ks)))) := by
  refine ⟨by rfl, ?_⟩
  intro i f rest ks cf hcf
  constructor
  · intro hk; simp only [mergeLoop, hcf, if_pos hk]
  · intro hk; simp only [mergeLoop, hcf, if_neg hk]

/-- C4 witness: the general step applied to `exIncA` against a key set
already holding its key — one duplicate, nothing appended. -/
theorem dedup_correct_witness :
    mergeLoop 0 [exIncA] [loadKey exHist] =
      onOk (fun r => (r.1, r.2.1, r.2.2.1 + 1, r.2.2.2))
        (mergeLoop 1 [] [loadKey exHist]) :=
  (dedup_correct.2 0 exIncA [] [loadKey exHist] exIncACleaned (by rfl)).1 (by decide)

/-- C3 amended.  For every accepted feature, the stored `alert_level` is
the authoritative classification of the *incoming* (pre-rounding)
confidence — any upstream-supplied alert level is discarded — while the
stored confidence is the 4-decimal rounding of the incoming value (so the
classification of the *stored* confidence can differ when rounding crosses
a threshold); and every feature of a merge output is either carried over
from the existing history or is a validator output. -/
theorem alert_consistency_amended :
    (∀ f cf, clean_feature f = .ok (.inl cf) →
      ∃ c : ℚ, pyFloat (getProp f.properties "confidence") = some c ∧
        strProp cf "alert_level" = some (remap_alert_level c) ∧
        numProp cf "confidence" = some (pyRound c 4)) ∧
    (∀ existing raw out, validate_and_clean existing raw false = .ok out →
      ∀ g ∈ out.1, g ∈ existing ∨ ∃ f ∈ raw, clean_feature f = .ok (.inl g)) := by
  constructor
  · intro f cf h
    obtain ⟨c, a, hc, ha, hlen, hdate, rfl⟩ := clean_feature_shape f cf h
    exact ⟨c, hc, strProp_alert _ _ _ _ _ _ _ _ _, numProp_confidence _ _ _ _ _ _ _ _ _⟩
  · intro existing raw out h g hg
    unfold validate_and_clean at h
    simp only [Bool.false_eq_true, if_false] at h
    cases hm : mergeLoop 0 raw (existing.map loadKey) with
    | error e => rw [hm] at h; exact absurd h (by simp)
    | ok r =>
      obtain ⟨cl, ks1, d, sk⟩ := r
      rw [hm] at h
      simp only [Except.ok.injEq] at h
      rw [← h] at hg
      rcases List.mem_append.mp hg with hx | hx
      · exact Or.inl hx
      · exact Or.inr (mergeLoop_cleaned_from raw 0 _ _ _ _ _ hm g hx)

/-- C3 witness: the amended theorem applied to `exValid` and to the run
that added it. -/
theorem alert_consistency_witness :
    (∃ c : ℚ, pyFloat (getProp exValid.properties "confidence") = some c ∧
      strProp exValidCleaned "alert_level" = some (remap_alert_level c) ∧
      numProp exValidCleaned "confidence" = some (pyRound c 4)) ∧
    (exValidCleaned ∈ ([] : List RawFeature) ∨
      ∃ f ∈ [exValid], clean_feature f = .ok (.inl exValidCleaned)) :=
  ⟨alert_consistency_amended.1 exValid exValidCleaned (by rfl),
   alert_consistency_amended.2 [] [exValid] ([exValidCleaned], 1, 0, []) (by rfl)
     exValidCleaned (by simp)⟩

/-- C7 amended.  For every accepted feature whose trimmed region is
non-empty, not `"Unknown"`, and does not *contain* the substring
`"Region"`, the validator appends `" Region"`; a region containing the
substring `"Region"` is not appended to and — unless it is exactly
`"Unknown Region"`, which goes through the district fallback — is stored
unchanged. -/
theorem region_suffix_amended :
    ∀ f cf r, clean_feature f = .ok (.inl cf) →
      r = pyStrip (pyStr (getProp f.properties "region")) →
      ((r ≠ "" ∧ r ≠ "Unknown" ∧ hasSubstr r "Region" = false →
        strProp cf "region" = some (r ++ " Region")) ∧
       (hasSubstr r "Region" = true ∧ r ≠ "Unknown Region" →
        strProp cf "region" = some r)) := by
  intro f cf r h hr
  obtain ⟨c, a, hc, ha, hlen, hdate, rfl⟩ := clean_feature_shape f cf h
  constructor
  · rintro ⟨h1, h2, h3⟩
    rw [strProp_region, ← hr, normalize_region_append r _ h1 h2 h3]
  · rintro ⟨h1, h2⟩
    rw [strProp_region, ← hr, normalize_region_keep r _ h1 h2]

/-- C7 witness: the amended theorem applied to `exValid`, whose region
`"Ashanti"` receives the suffix. -/
theorem region_suffix_witness :
    strProp exValidCleaned "region" = some ("Ashanti" ++ " Region") :=
  (region_suffix_amended exValid exValidCleaned "Ashanti" (by rfl) (by rfl)).1
    ⟨by decide, by decide, by rfl⟩

/-- C10 amended.  For every accepted feature, the cleaned output's
geometry is exactly the input's geometry, unchanged; validation rewrites
the properties object and additionally forces the top-level `type` to
`"Feature"`. -/
theorem geometry_frame (f cf : RawFeature)
    (h : clean_feature f = .ok (.inl cf)) :
    cf.geometry = f.geometry ∧ cf.ftype = some "Feature" := by
  obtain ⟨c, a, hc, ha, hlen, hdate, rfl⟩ := clean_feature_shape f cf h
  refine ⟨?_, rfl⟩
  cases hg : f.geometry with
  | none => rw [hg] at hlen; simp [emptyGeom] at hlen
  | some g => simp

/-- C10 witness: the amended theorem applied to `exValid`. -/
theorem geometry_frame_witness :
    exValidCleaned.geometry = exValid.geometry ∧
    exValidCleaned.ftype = some "Feature" :=
  geometry_frame exValid exValidCleaned (by rfl)

end MainTheorems
